import Mathlib

/-!
Verification development for the midori unit-test runner.

The repository ships a type contract (`src/index.d.ts`) describing a
scope-tree test runner: declaration callbacks build a tree of scopes,
tests and hooks; a resolver applies FOCUS/SKIP modifiers; a scheduler
executes leaves sequentially or concurrently with per-test contexts,
beforeEach/afterEach hooks and a timeout watchdog; results are
aggregated into a declaration-order report.  The executable engine is
not part of the shipped surface, so the engine components below are
modelled from the specification; the `TestProps` interface data is
transcribed from `index.d.ts` itself.
-/

/-- Modifier tag carried by a scope or a test leaf. -/
inductive Modifier where
  | NONE
  | FOCUS
  | SKIP
deriving DecidableEq, Repr

/-- Whether a modifier is FOCUS. -/
def Modifier.isFocus : Modifier → Bool
  | Modifier.FOCUS => true
  | _ => false

/-- Whether a modifier is SKIP. -/
def Modifier.isSkip : Modifier → Bool
  | Modifier.SKIP => true
  | _ => false

/-- Modelled from the spec: the scope tree built by the Scope Tree Builder
(the builder itself is absent from the shipped sources).  A scope holds, in
declaration order, an interleaved list of test leaves and nested scopes,
plus its hook lists (hooks identified by numeric ids). -/
inductive ScopeItem where
  | leaf (name : String) (modifier : Modifier)
  | scope (name : String) (modifier : Modifier)
      (beforeEachHooks : List Nat) (afterEachHooks : List Nat)
      (items : List ScopeItem)

mutual

/-- Modelled from the spec: whether any TestLeaf or ScopeNode anywhere in
the tree carries the FOCUS modifier ("focus detection requires seeing the
whole tree first"). -/
def itemHasFocus : ScopeItem → Bool
  | ScopeItem.leaf _ m => m.isFocus
  | ScopeItem.scope _ m _ _ items => m.isFocus || itemsHaveFocus items

/-- Modelled from the spec: FOCUS detection over a list of scope items. -/
def itemsHaveFocus : List ScopeItem → Bool
  | [] => false
  | x :: xs => itemHasFocus x || itemsHaveFocus xs

end

/-- Resolution status assigned to a leaf by the Focus/Skip Resolver. -/
inductive LeafStatus where
  | RUN
  | EXCLUDED_BY_FOCUS
  | EXCLUDED_BY_SKIP
deriving DecidableEq, Repr

/-- One entry of the resolver's output: a leaf identity (scope path and
name) together with its resolution status. -/
structure ResolvedLeaf where
  path : List String
  name : String
  status : LeafStatus
deriving DecidableEq, Repr

mutual

/-- Modelled from the spec: the Focus/Skip Resolver's traversal of one
item.  `gf` records whether FOCUS occurs anywhere in the whole tree,
`ancFocus`/`ancSkip` whether an ancestor scope (the current scope
included) carries FOCUS/SKIP.  SKIP is checked first, so SKIP takes
precedence over FOCUS. -/
def resolveItem (gf ancFocus ancSkip : Bool) (path : List String) :
    ScopeItem → List ResolvedLeaf
  | ScopeItem.leaf n m =>
      [⟨path, n,
        if ancSkip || m.isSkip then LeafStatus.EXCLUDED_BY_SKIP
        else if gf && !(ancFocus || m.isFocus) then LeafStatus.EXCLUDED_BY_FOCUS
        else LeafStatus.RUN⟩]
  | ScopeItem.scope n m _ _ items =>
      resolveItems gf (ancFocus || m.isFocus) (ancSkip || m.isSkip)
        (path ++ [n]) items

/-- Modelled from the spec: the Focus/Skip Resolver's traversal of the
items of one scope, in declaration order. -/
def resolveItems (gf ancFocus ancSkip : Bool) (path : List String) :
    List ScopeItem → List ResolvedLeaf
  | [] => []
  | x :: xs =>
      resolveItem gf ancFocus ancSkip path x ++
        resolveItems gf ancFocus ancSkip path xs

end

/-- Modelled from the spec: the Focus/Skip Resolver.  It first detects
FOCUS globally over the whole tree, then annotates every leaf with
RUN / EXCLUDED_BY_FOCUS / EXCLUDED_BY_SKIP. -/
def resolve (t : ScopeItem) : List ResolvedLeaf :=
  resolveItem (itemHasFocus t) false false [] t

/-- Declarative view of one leaf: its identity, its own modifier, and the
modifiers of its ancestor scopes (outermost first). -/
structure LeafInfo where
  path : List String
  name : String
  modifier : Modifier
  ancestorModifiers : List Modifier
deriving DecidableEq, Repr

mutual

/-- Declarative enumeration of the leaves of one item in declaration
order, each with its ancestor-scope modifiers. -/
def leafInfosItem (anc : List Modifier) (path : List String) :
    ScopeItem → List LeafInfo
  | ScopeItem.leaf n m => [⟨path, n, m, anc⟩]
  | ScopeItem.scope n m _ _ items =>
      leafInfosItems (anc ++ [m]) (path ++ [n]) items

/-- Declarative enumeration of the leaves of a list of items. -/
def leafInfosItems (anc : List Modifier) (path : List String) :
    List ScopeItem → List LeafInfo
  | [] => []
  | x :: xs =>
      leafInfosItem anc path x ++ leafInfosItems anc path xs

end

/-- All leaves of a tree, in declaration (depth-first) order. -/
def leafInfos (t : ScopeItem) : List LeafInfo := leafInfosItem [] [] t

/-- A leaf is under SKIP when its own scope chain or the leaf itself
carries SKIP. -/
def LeafInfo.underSkip (l : LeafInfo) : Bool :=
  l.ancestorModifiers.any Modifier.isSkip || l.modifier.isSkip

/-- A leaf is on a FOCUS path when the leaf itself or an ancestor scope
carries FOCUS. -/
def LeafInfo.onFocusPath (l : LeafInfo) : Bool :=
  l.ancestorModifiers.any Modifier.isFocus || l.modifier.isFocus

/-- The status the specification's rule set dictates for a leaf, given
global focus detection: SKIP first, then focus exclusion, then RUN. -/
def specStatus (gf : Bool) (l : LeafInfo) : LeafStatus :=
  if l.underSkip then LeafStatus.EXCLUDED_BY_SKIP
  else if gf && !l.onFocusPath then LeafStatus.EXCLUDED_BY_FOCUS
  else LeafStatus.RUN

/-- Sample tree with one FOCUS leaf and one plain leaf. -/
def focusSample : ScopeItem :=
  ScopeItem.scope "root" Modifier.NONE [] []
    [ScopeItem.leaf "a" Modifier.NONE, ScopeItem.leaf "b" Modifier.FOCUS]

/-- Sample tree whose SKIP scope contains a plain leaf and a FOCUS leaf,
with a further FOCUS leaf outside the SKIP scope. -/
def skipFocusSample : ScopeItem :=
  ScopeItem.scope "root" Modifier.NONE [] []
    [ScopeItem.scope "s" Modifier.SKIP [] []
      [ScopeItem.leaf "a" Modifier.NONE, ScopeItem.leaf "c" Modifier.FOCUS],
     ScopeItem.leaf "b" Modifier.FOCUS]

/-- A setup or teardown hook: a numeric identity plus whether invoking it
raises. -/
structure Hook where
  id : Nat
  fails : Bool
deriving DecidableEq, Repr

/-- The hook lists declared by one scope, in declaration order. -/
structure ScopeHooks where
  beforeEachHooks : List Hook
  afterEachHooks : List Hook
deriving DecidableEq, Repr

/-- An observable step of one leaf execution, tagged with the identity of
the Context object handed to the callback. -/
inductive Event where
  | beforeRun (ctx : Nat) (id : Nat)
  | bodyRun (ctx : Nat)
  | afterRun (ctx : Nat) (id : Nat)
deriving DecidableEq, Repr

/-- The Context identity an event carries. -/
def Event.ctxOf : Event → Nat
  | Event.beforeRun c _ => c
  | Event.bodyRun c => c
  | Event.afterRun c _ => c

/-- Outcome recorded against a leaf. -/
inductive LeafOutcome where
  | passed
  | failed
  | hookFailure (id : Nat)
deriving DecidableEq, Repr

/-- Modelled from the spec: run one scope's beforeEach hooks in
declaration order, stopping at the first hook that raises; returns the
events emitted and the failing hook's id, if any. -/
def runBeforeHooks (ctx : Nat) : List Hook → List Event × Option Nat
  | [] => ([], none)
  | h :: hs =>
      if h.fails then ([Event.beforeRun ctx h.id], some h.id)
      else
        let r := runBeforeHooks ctx hs
        (Event.beforeRun ctx h.id :: r.1, r.2)

/-- Modelled from the spec: run one scope's afterEach hooks in declaration
order; teardown always runs every hook, recording the first failure. -/
def runAfterHooks (ctx : Nat) : List Hook → List Event × Option Nat
  | [] => ([], none)
  | h :: hs =>
      let r := runAfterHooks ctx hs
      (Event.afterRun ctx h.id :: r.1, if h.fails then some h.id else r.2)

/-- Modelled from the spec: the setup phase walks the scope chain
outer-to-inner, running each scope's beforeEach hooks; a hook failure
aborts the phase.  Returns the events, the failing hook id if any, and
the scopes entered so far (outer-to-inner). -/
def runBeforePhase (ctx : Nat) : List ScopeHooks → List Event × Option Nat × List ScopeHooks
  | [] => ([], none, [])
  | s :: rest =>
      let r := runBeforeHooks ctx s.beforeEachHooks
      match r.2 with
      | some i => (r.1, some i, [s])
      | none =>
          let q := runBeforePhase ctx rest
          (r.1 ++ q.1, q.2.1, s :: q.2.2)

/-- Modelled from the spec: the teardown phase walks the entered scopes
inner-to-outer, running every afterEach hook of each; it records the first
failure but never stops. -/
def runAfterPhase (ctx : Nat) : List ScopeHooks → List Event × Option Nat
  | [] => ([], none)
  | s :: rest =>
      let q := runAfterPhase ctx rest
      let r := runAfterHooks ctx s.afterEachHooks
      (q.1 ++ r.1,
       match q.2 with
       | some i => some i
       | none => r.2)

/-- A leaf to execute: its scope chain (outer-to-inner) and whether its
body raises. -/
structure LeafSpec where
  chain : List ScopeHooks
  bodyFails : Bool
deriving DecidableEq, Repr

/-- Modelled from the spec: execute one leaf with Context `ctx` — apply
inherited beforeEach hooks outer-to-inner; a hook failure aborts the test
body but still triggers the afterEach hooks of the scopes entered so far,
inner-to-outer; otherwise run the body and then all afterEach hooks
inner-to-outer regardless of the body's outcome. -/
def executeLeaf (ctx : Nat) (l : LeafSpec) : List Event × LeafOutcome :=
  let b := runBeforePhase ctx l.chain
  match b.2.1 with
  | some i =>
      let a := runAfterPhase ctx b.2.2
      (b.1 ++ a.1, LeafOutcome.hookFailure i)
  | none =>
      let a := runAfterPhase ctx l.chain
      (b.1 ++ [Event.bodyRun ctx] ++ a.1,
       if l.bodyFails then LeafOutcome.failed
       else
         match a.2 with
         | some j => LeafOutcome.hookFailure j
         | none => LeafOutcome.passed)

/-- Modelled from the spec: the sequential Execution Scheduler — each leaf
is executed with a freshly allocated Context (an allocation counter), and
every leaf is executed whatever the outcomes of the leaves before it. -/
def runAll (c0 : Nat) : List LeafSpec → List (Nat × List Event × LeafOutcome)
  | [] => []
  | l :: ls => (c0, executeLeaf c0 l) :: runAll (c0 + 1) ls

/-- Ordering of report entries by declaration index. -/
def keyLE {α : Type} (a b : Nat × α) : Prop := a.1 ≤ b.1

/-- Strict ordering of report entries by declaration index. -/
def keyLT {α : Type} (a b : Nat × α) : Prop := a.1 < b.1

instance {α : Type} : DecidableRel (keyLE (α := α)) := fun a b => Nat.decLe a.1 b.1

instance {α : Type} : IsTotal (Nat × α) keyLE := ⟨fun a b => Nat.le_total a.1 b.1⟩

instance {α : Type} : IsTrans (Nat × α) keyLE := ⟨fun _ _ _ => Nat.le_trans⟩

instance {α : Type} : IsAntisymm (Nat × α) keyLT :=
  ⟨fun _ _ h1 h2 => absurd h1 (Nat.lt_asymm h2)⟩

/-- Modelled from the spec: result aggregation of the Execution Scheduler
(absent from the shipped sources) — results collected in completion order,
each tagged with its declaration index, are sorted back into tree order
before being handed to the reporting collaborator. -/
def aggregateReport {α : Type} (completions : List (Nat × α)) : List (Nat × α) :=
  List.insertionSort keyLE completions

/-- Configuration the Timeout Watchdog consults. -/
structure RunnerConfig where
  showTimeoutWarning : Bool
  timeoutWarningDelay : Nat
deriving DecidableEq, Repr

/-- Final per-test result: the body's pass/fail outcome plus the warning
flag the Watchdog may add. -/
structure WatchResult where
  passed : Bool
  warned : Bool
deriving DecidableEq, Repr

/-- A non-fatal warning event, tagged with the leaf's identity and the
elapsed time when the timer fired. -/
structure WarningEvent where
  leafName : String
  elapsed : Nat
deriving DecidableEq, Repr

/-- Modelled from the spec: the Timeout Watchdog (absent from the shipped
sources) — when warnings are enabled and a test runs longer than the
configured delay, one warning event tagged with the leaf's identity is
emitted and the warning flag is set; the test always runs to its natural
completion and its pass/fail outcome is untouched. -/
def watchdogRun (cfg : RunnerConfig) (leafName : String) (elapsed : Nat)
    (bodyPassed : Bool) : WatchResult × List WarningEvent :=
  if cfg.showTimeoutWarning && decide (cfg.timeoutWarningDelay < elapsed) then
    (⟨bodyPassed, true⟩, [⟨leafName, cfg.timeoutWarningDelay⟩])
  else
    (⟨bodyPassed, false⟩, [])

/-- Whether `pat` occurs as a contiguous run inside `msg`. -/
def charsContain : List Char → List Char → Bool
  | [], pat => pat.isEmpty
  | c :: rest, pat => pat.isPrefixOf (c :: rest) || charsContain rest pat

/-- Whether string `pat` occurs inside string `msg`. -/
def strContainsSub (msg pat : String) : Bool :=
  charsContain msg.toList pat.toList

/-- Outcome of a `shouldThrow` assertion. -/
inductive ThrowOutcome where
  | success
  | noThrowFailure
  | mismatchFailure
deriving DecidableEq, Repr

/-- Modelled from the spec: the `shouldThrow(callback, substring?)`
assertion helper (absent from the shipped sources) — the callback is
modelled by the message it raises, `none` when it completes without
raising.  Completing without raising fails with NoThrow; raising with a
provided pattern absent from the message fails with SubstringMismatch;
every other case succeeds. -/
def shouldThrow (callbackError : Option String) (pat : Option String) :
    ThrowOutcome :=
  match callbackError with
  | none => ThrowOutcome.noThrowFailure
  | some msg =>
      match pat with
      | none => ThrowOutcome.success
      | some s =>
          if strContainsSub msg s then ThrowOutcome.success
          else ThrowOutcome.mismatchFailure

/-- The `TestConfig` record of `index.d.ts`: every field optional. -/
structure TestConfig where
  showTimeoutWarning : Option Bool
  timeoutWarningDelay : Option Nat
  concurrent : Option Bool
deriving DecidableEq, Repr

/-- The configuration after defaulting. -/
structure EffectiveConfig where
  showTimeoutWarning : Bool
  timeoutWarningDelay : Nat
  concurrent : Bool
deriving DecidableEq, Repr

/-- Modelled from the spec: defaulting of omitted configuration fields
(the runner that applies the defaults is absent from the shipped sources;
the default values true / 15 / false are documented in `index.d.ts`). -/
def resolveConfig (c : TestConfig) : EffectiveConfig :=
  ⟨c.showTimeoutWarning.getD true, c.timeoutWarningDelay.getD 15,
   c.concurrent.getD false⟩

/-- One member of a declared interface: its name and whether the
declaration marks it read-only. -/
structure InterfaceMember where
  memberName : String
  isReadonly : Bool
deriving DecidableEq, Repr

/-- The members of the `TestProps` interface, transcribed from
`src/index.d.ts` lines 47-124 in declaration order; each carries the
`readonly` modifier in the source. -/
def testPropsMembers : List InterfaceMember :=
  [⟨"assertEqual", true⟩, ⟨"test", true⟩, ⟨"testFOCUS", true⟩,
   ⟨"testSKIP", true⟩, ⟨"beforeEach", true⟩, ⟨"afterEach", true⟩,
   ⟨"nested", true⟩, ⟨"shouldThrow", true⟩]

/-! ## Theorems -/

mutual

theorem resolveItem_eq_spec (gf : Bool) (anc : List Modifier)
    (path : List String) (it : ScopeItem) :
    resolveItem gf (anc.any Modifier.isFocus) (anc.any Modifier.isSkip) path it
      = (leafInfosItem anc path it).map
          (fun l => ⟨l.path, l.name, specStatus gf l⟩) := by
  match it with
  | ScopeItem.leaf n m =>
      simp [resolveItem, leafInfosItem, specStatus, LeafInfo.underSkip,
        LeafInfo.onFocusPath]
  | ScopeItem.scope n m bh ah items =>
      have h := resolveItems_eq_spec gf (anc ++ [m]) (path ++ [n]) items
      simpa [resolveItem, leafInfosItem, List.any_append] using h

theorem resolveItems_eq_spec (gf : Bool) (anc : List Modifier)
    (path : List String) (its : List ScopeItem) :
    resolveItems gf (anc.any Modifier.isFocus) (anc.any Modifier.isSkip) path its
      = (leafInfosItems anc path its).map
          (fun l => ⟨l.path, l.name, specStatus gf l⟩) := by
  match its with
  | [] => simp [resolveItems, leafInfosItems]
  | x :: xs =>
      have h1 := resolveItem_eq_spec gf anc path x
      have h2 := resolveItems_eq_spec gf anc path xs
      simp [resolveItems, leafInfosItems, h1, h2]

end

/-- The resolver's output is exactly the declarative per-leaf rule applied
to every leaf, in declaration order. -/
theorem resolve_eq_spec (t : ScopeItem) :
    resolve t = (leafInfos t).map
      (fun l => ⟨l.path, l.name, specStatus (itemHasFocus t) l⟩) := by
  have h := resolveItem_eq_spec (itemHasFocus t) [] [] t
  simpa [resolve, leafInfos] using h

/-- C1 (as literally stated) is refuted by `skipFocusSample`: FOCUS is
present in the tree, leaf "a" is on no FOCUS path, yet it is marked
EXCLUDED_BY_SKIP rather than EXCLUDED_BY_FOCUS; and the FOCUS-marked leaf
"c" is not runnable, being under a SKIP scope. -/
theorem focus_global_counterexample :
    itemHasFocus skipFocusSample = true ∧
    ((leafInfos skipFocusSample).map LeafInfo.onFocusPath)[0]? = some false ∧
    (resolve skipFocusSample)[0]? =
      some ⟨["root", "s"], "a", LeafStatus.EXCLUDED_BY_SKIP⟩ ∧
    LeafStatus.EXCLUDED_BY_SKIP ≠ LeafStatus.EXCLUDED_BY_FOCUS ∧
    ((leafInfos skipFocusSample).map LeafInfo.modifier)[1]? = some Modifier.FOCUS ∧
    (resolve skipFocusSample)[1]? =
      some ⟨["root", "s"], "c", LeafStatus.EXCLUDED_BY_SKIP⟩ ∧
    LeafStatus.EXCLUDED_BY_SKIP ≠ LeafStatus.RUN := by
  decide

/-- C1 (amended): when FOCUS occurs anywhere in the tree, the resolver
reports every leaf (none dropped), a leaf is runnable exactly when it is
on a FOCUS path and not under SKIP, and every non-SKIP leaf off every
FOCUS path is marked EXCLUDED_BY_FOCUS; the FOCUS check is global. -/
theorem focus_resolution_global (t : ScopeItem) (i : Nat) (l : LeafInfo)
    (r : ResolvedLeaf) (hf : itemHasFocus t = true)
    (hl : (leafInfos t)[i]? = some l) (hr : (resolve t)[i]? = some r) :
    (resolve t).length = (leafInfos t).length ∧
    r.path = l.path ∧ r.name = l.name ∧
    (r.status = LeafStatus.RUN ↔
      (l.underSkip = false ∧ l.onFocusPath = true)) ∧
    (l.underSkip = false → l.onFocusPath = false →
      r.status = LeafStatus.EXCLUDED_BY_FOCUS) := by
  rw [resolve_eq_spec] at hr
  rw [List.getElem?_map, hl, Option.map_some'] at hr
  have hrr : r = ⟨l.path, l.name, specStatus (itemHasFocus t) l⟩ :=
    (Option.some.inj hr).symm
  subst hrr
  refine ⟨by rw [resolve_eq_spec, List.length_map], rfl, rfl, ?_, ?_⟩
  · cases hu : l.underSkip <;> cases ho : l.onFocusPath <;>
      simp [specStatus, hu, ho, hf]
  · intro hu ho
    simp [specStatus, hu, ho, hf]

/-- Witness for the amended C1 at `focusSample`: its first leaf "a" is off
every FOCUS path and is marked EXCLUDED_BY_FOCUS. -/
theorem focus_resolution_global_witness :
    (resolve focusSample).length = (leafInfos focusSample).length ∧
    (ResolvedLeaf.mk ["root"] "a" LeafStatus.EXCLUDED_BY_FOCUS).path =
      (LeafInfo.mk ["root"] "a" Modifier.NONE [Modifier.NONE]).path ∧
    (ResolvedLeaf.mk ["root"] "a" LeafStatus.EXCLUDED_BY_FOCUS).name =
      (LeafInfo.mk ["root"] "a" Modifier.NONE [Modifier.NONE]).name ∧
    ((ResolvedLeaf.mk ["root"] "a" LeafStatus.EXCLUDED_BY_FOCUS).status =
        LeafStatus.RUN ↔
      ((LeafInfo.mk ["root"] "a" Modifier.NONE [Modifier.NONE]).underSkip = false ∧
       (LeafInfo.mk ["root"] "a" Modifier.NONE [Modifier.NONE]).onFocusPath = true)) ∧
    ((LeafInfo.mk ["root"] "a" Modifier.NONE [Modifier.NONE]).underSkip = false →
     (LeafInfo.mk ["root"] "a" Modifier.NONE [Modifier.NONE]).onFocusPath = false →
     (ResolvedLeaf.mk ["root"] "a" LeafStatus.EXCLUDED_BY_FOCUS).status =
       LeafStatus.EXCLUDED_BY_FOCUS) :=
  focus_resolution_global focusSample 0
    ⟨["root"], "a", Modifier.NONE, [Modifier.NONE]⟩
    ⟨["root"], "a", LeafStatus.EXCLUDED_BY_FOCUS⟩
    (by decide) (by decide) (by decide)

/-- C2: SKIP takes precedence over FOCUS — any leaf whose own modifier or
whose ancestor chain carries SKIP resolves to EXCLUDED_BY_SKIP, with no
assumption about FOCUS anywhere (so in particular even when the leaf or an
ancestor is FOCUS-marked). -/
theorem skip_precedence (t : ScopeItem) (i : Nat) (l : LeafInfo)
    (r : ResolvedLeaf) (hl : (leafInfos t)[i]? = some l)
    (hr : (resolve t)[i]? = some r) (hs : l.underSkip = true) :
    r.status = LeafStatus.EXCLUDED_BY_SKIP := by
  rw [resolve_eq_spec] at hr
  rw [List.getElem?_map, hl, Option.map_some'] at hr
  have hrr : r = ⟨l.path, l.name, specStatus (itemHasFocus t) l⟩ :=
    (Option.some.inj hr).symm
  subst hrr
  simp [specStatus, hs]

/-- Witness for C2 at `skipFocusSample`: the FOCUS-marked leaf "c" sits
inside the SKIP scope "s" and is excluded by SKIP. -/
theorem skip_precedence_witness :
    (ResolvedLeaf.mk ["root", "s"] "c" LeafStatus.EXCLUDED_BY_SKIP).status =
      LeafStatus.EXCLUDED_BY_SKIP :=
  skip_precedence skipFocusSample 1
    ⟨["root", "s"], "c", Modifier.FOCUS, [Modifier.NONE, Modifier.SKIP]⟩
    ⟨["root", "s"], "c", LeafStatus.EXCLUDED_BY_SKIP⟩
    (by decide) (by decide) (by decide)

theorem runBeforeHooks_ok (ctx : Nat) (hs : List Hook)
    (h : ∀ k ∈ hs, k.fails = false) :
    runBeforeHooks ctx hs = (hs.map (fun k => Event.beforeRun ctx k.id), none) := by
  induction hs with
  | nil => simp [runBeforeHooks]
  | cons k ks ih =>
      have hk : k.fails = false := h k (List.mem_cons_self k ks)
      have hrest : ∀ x ∈ ks, x.fails = false := fun x hx => h x (List.mem_cons_of_mem k hx)
      simp [runBeforeHooks, hk, ih hrest]

theorem runAfterHooks_events (ctx : Nat) (hs : List Hook) :
    (runAfterHooks ctx hs).1 = hs.map (fun k => Event.afterRun ctx k.id) := by
  induction hs with
  | nil => simp [runAfterHooks]
  | cons k ks ih => simp [runAfterHooks, ih]

theorem runAll_getElem (c0 : Nat) (ls : List LeafSpec) (i : Nat) :
    (runAll c0 ls)[i]? =
      (ls[i]?).map (fun l => (c0 + i, executeLeaf (c0 + i) l)) := by
  induction ls generalizing c0 i with
  | nil => simp [runAll]
  | cons l ls ih =>
      cases i with
      | zero => simp [runAll]
      | succ k =>
          have h := ih (c0 + 1) k
          simpa [runAll, Nat.add_comm, Nat.add_assoc, Nat.add_left_comm] using h

/-- C3: for a leaf nested under scopes `outerScope ⊃ innerScope` whose
setup hooks all succeed, the execution trace is exactly: outer beforeEach
hooks, inner beforeEach hooks, the body, inner afterEach hooks, outer
afterEach hooks — for both values of `bodyFails`, so teardown runs on
every exit path, including a raising body. -/
theorem hook_order_and_teardown (outerScope innerScope : ScopeHooks)
    (ctx : Nat) (bodyFails : Bool)
    (hOuter : ∀ k ∈ outerScope.beforeEachHooks, k.fails = false)
    (hInner : ∀ k ∈ innerScope.beforeEachHooks, k.fails = false) :
    (executeLeaf ctx ⟨[outerScope, innerScope], bodyFails⟩).1 =
      outerScope.beforeEachHooks.map (fun k => Event.beforeRun ctx k.id)
      ++ innerScope.beforeEachHooks.map (fun k => Event.beforeRun ctx k.id)
      ++ [Event.bodyRun ctx]
      ++ innerScope.afterEachHooks.map (fun k => Event.afterRun ctx k.id)
      ++ outerScope.afterEachHooks.map (fun k => Event.afterRun ctx k.id) := by
  simp [executeLeaf, runBeforePhase, runAfterPhase,
    runBeforeHooks_ok ctx _ hOuter, runBeforeHooks_ok ctx _ hInner,
    runAfterHooks_events]

/-- Witness for C3: a concrete two-scope chain with a raising body still
produces setup outer-to-inner, the body, then teardown inner-to-outer. -/
theorem hook_order_and_teardown_witness :
    (executeLeaf 0 ⟨[⟨[⟨1, false⟩], [⟨2, false⟩]⟩,
        ⟨[⟨3, false⟩], [⟨4, true⟩]⟩], true⟩).1 =
      [Event.beforeRun 0 1, Event.beforeRun 0 3, Event.bodyRun 0,
       Event.afterRun 0 4, Event.afterRun 0 2] := by
  have h := hook_order_and_teardown ⟨[⟨1, false⟩], [⟨2, false⟩]⟩
    ⟨[⟨3, false⟩], [⟨4, true⟩]⟩ 0 true (by decide) (by decide)
  simpa using h

/-- C5: when the first beforeEach hook of the inner scope raises, the
leaf's body never runs, the failure is recorded against the leaf as a
HookFailure, the afterEach hooks of the scopes entered so far still run
inner-to-outer, and every leaf in the scheduler's list is still executed
at its own position whatever the other leaves do. -/
theorem before_hook_failure_contained (outerScope innerScope : ScopeHooks)
    (ctx : Nat) (bodyFails : Bool) (bad : Hook) (rest : List Hook)
    (c0 : Nat) (ls : List LeafSpec) (i : Nat) (sib : LeafSpec)
    (hOuter : ∀ k ∈ outerScope.beforeEachHooks, k.fails = false)
    (hBad : innerScope.beforeEachHooks = bad :: rest)
    (hFails : bad.fails = true)
    (hSib : ls[i]? = some sib) :
    (executeLeaf ctx ⟨[outerScope, innerScope], bodyFails⟩).1 =
      outerScope.beforeEachHooks.map (fun k => Event.beforeRun ctx k.id)
      ++ [Event.beforeRun ctx bad.id]
      ++ innerScope.afterEachHooks.map (fun k => Event.afterRun ctx k.id)
      ++ outerScope.afterEachHooks.map (fun k => Event.afterRun ctx k.id) ∧
    Event.bodyRun ctx ∉ (executeLeaf ctx ⟨[outerScope, innerScope], bodyFails⟩).1 ∧
    (executeLeaf ctx ⟨[outerScope, innerScope], bodyFails⟩).2 =
      LeafOutcome.hookFailure bad.id ∧
    (runAll c0 ls)[i]? = some (c0 + i, executeLeaf (c0 + i) sib) := by
  have htrace :
      (executeLeaf ctx ⟨[outerScope, innerScope], bodyFails⟩).1 =
        outerScope.beforeEachHooks.map (fun k => Event.beforeRun ctx k.id)
        ++ [Event.beforeRun ctx bad.id]
        ++ innerScope.afterEachHooks.map (fun k => Event.afterRun ctx k.id)
        ++ outerScope.afterEachHooks.map (fun k => Event.afterRun ctx k.id) := by
    simp [executeLeaf, runBeforePhase, runAfterPhase,
      runBeforeHooks_ok ctx _ hOuter, hBad, runBeforeHooks, hFails,
      runAfterHooks_events]
  refine ⟨htrace, ?_, ?_, ?_⟩
  · rw [htrace]
    simp
  · simp [executeLeaf, runBeforePhase,
      runBeforeHooks_ok ctx _ hOuter, hBad, runBeforeHooks, hFails]
  · rw [runAll_getElem, hSib, Option.map_some']

/-- Witness for C5: concrete scopes in which the inner scope's single
beforeEach hook raises; the body is skipped, teardown still runs, the
failure is recorded, and the sibling at position 1 still executes. -/
theorem before_hook_failure_contained_witness :
    (executeLeaf 0 ⟨[⟨[⟨1, false⟩], [⟨2, false⟩]⟩,
        ⟨[⟨3, true⟩], [⟨4, false⟩]⟩], false⟩).1 =
      ([⟨1, false⟩] : List Hook).map (fun k => Event.beforeRun 0 k.id)
      ++ [Event.beforeRun 0 3]
      ++ ([⟨4, false⟩] : List Hook).map (fun k => Event.afterRun 0 k.id)
      ++ ([⟨2, false⟩] : List Hook).map (fun k => Event.afterRun 0 k.id) ∧
    Event.bodyRun 0 ∉ (executeLeaf 0 ⟨[⟨[⟨1, false⟩], [⟨2, false⟩]⟩,
        ⟨[⟨3, true⟩], [⟨4, false⟩]⟩], false⟩).1 ∧
    (executeLeaf 0 ⟨[⟨[⟨1, false⟩], [⟨2, false⟩]⟩,
        ⟨[⟨3, true⟩], [⟨4, false⟩]⟩], false⟩).2 =
      LeafOutcome.hookFailure 3 ∧
    (runAll 10 [⟨[⟨[⟨1, false⟩], [⟨2, false⟩]⟩,
        ⟨[⟨3, true⟩], [⟨4, false⟩]⟩], false⟩, ⟨[], false⟩])[1]? =
      some (10 + 1, executeLeaf (10 + 1) ⟨[], false⟩) :=
  before_hook_failure_contained ⟨[⟨1, false⟩], [⟨2, false⟩]⟩
    ⟨[⟨3, true⟩], [⟨4, false⟩]⟩ 0 false ⟨3, true⟩ [] 10
    [⟨[⟨[⟨1, false⟩], [⟨2, false⟩]⟩, ⟨[⟨3, true⟩], [⟨4, false⟩]⟩], false⟩,
     ⟨[], false⟩] 1 ⟨[], false⟩
    (by decide) rfl rfl rfl

theorem runAll_length (c0 : Nat) (ls : List LeafSpec) :
    (runAll c0 ls).length = ls.length := by
  induction ls generalizing c0 with
  | nil => simp [runAll]
  | cons l ls ih => simp [runAll, ih]

theorem runBeforeHooks_ctx (ctx : Nat) (hs : List Hook) :
    ∀ e ∈ (runBeforeHooks ctx hs).1, e.ctxOf = ctx := by
  induction hs with
  | nil => simp [runBeforeHooks]
  | cons k ks ih =>
      intro e he
      by_cases hk : k.fails = true
      · simp [runBeforeHooks, hk] at he
        simp [he, Event.ctxOf]
      · simp [runBeforeHooks, hk] at he
        rcases he with he | he
        · simp [he, Event.ctxOf]
        · exact ih e he

theorem runAfterHooks_ctx (ctx : Nat) (hs : List Hook) :
    ∀ e ∈ (runAfterHooks ctx hs).1, e.ctxOf = ctx := by
  intro e he
  rw [runAfterHooks_events] at he
  rcases List.mem_map.mp he with ⟨k, _, hk⟩
  simp [← hk, Event.ctxOf]

theorem runBeforePhase_ctx (ctx : Nat) (chain : List ScopeHooks) :
    ∀ e ∈ (runBeforePhase ctx chain).1, e.ctxOf = ctx := by
  induction chain with
  | nil => simp [runBeforePhase]
  | cons s rest ih =>
      intro e he
      simp only [runBeforePhase] at he
      rcases hr : (runBeforeHooks ctx s.beforeEachHooks).2 with _ | i
      · rw [hr] at he
        simp at he
        rcases he with he | he
        · exact runBeforeHooks_ctx ctx s.beforeEachHooks e he
        · exact ih e he
      · rw [hr] at he
        simp at he
        exact runBeforeHooks_ctx ctx s.beforeEachHooks e he

theorem runAfterPhase_ctx (ctx : Nat) (chain : List ScopeHooks) :
    ∀ e ∈ (runAfterPhase ctx chain).1, e.ctxOf = ctx := by
  induction chain with
  | nil => simp [runAfterPhase]
  | cons s rest ih =>
      intro e he
      simp only [runAfterPhase] at he
      simp at he
      rcases he with he | he
      · exact ih e he
      · exact runAfterHooks_ctx ctx s.afterEachHooks e he

theorem executeLeaf_ctx (ctx : Nat) (l : LeafSpec) :
    ∀ e ∈ (executeLeaf ctx l).1, e.ctxOf = ctx := by
  intro e he
  simp only [executeLeaf] at he
  rcases hb : (runBeforePhase ctx l.chain).2.1 with _ | i
  · rw [hb] at he
    simp [List.mem_append, List.mem_cons] at he
    rcases he with he | he | he
    · exact runBeforePhase_ctx ctx l.chain e he
    · simp [he, Event.ctxOf]
    · exact runAfterPhase_ctx ctx l.chain e he
  · rw [hb] at he
    simp at he
    rcases he with he | he
    · exact runBeforePhase_ctx ctx l.chain e he
    · exact runAfterPhase_ctx ctx _ e he

/-- C7: under the scheduler, every leaf execution receives a freshly
allocated Context (allocation counter plus position), two distinct leaf
executions never share a Context, every beforeEach/body/afterEach event
of an execution carries exactly that execution's own Context, and no
event of one execution ever carries another execution's Context. -/
theorem context_isolation (c0 : Nat) (ls : List LeafSpec) (i j : Nat)
    (ri rj : Nat × List Event × LeafOutcome)
    (hi : (runAll c0 ls)[i]? = some ri)
    (hj : (runAll c0 ls)[j]? = some rj) (hne : i ≠ j) :
    (runAll c0 ls).length = ls.length ∧
    ri.1 = c0 + i ∧ rj.1 = c0 + j ∧ ri.1 ≠ rj.1 ∧
    ri.2.1.all (fun e => e.ctxOf == ri.1) = true ∧
    ri.2.1.all (fun e => e.ctxOf != rj.1) = true := by
  rw [runAll_getElem] at hi hj
  rcases hli : ls[i]? with _ | li
  · rw [hli] at hi; simp at hi
  rcases hlj : ls[j]? with _ | lj
  · rw [hlj] at hj; simp at hj
  rw [hli] at hi
  rw [hlj] at hj
  simp only [Option.map_some'] at hi hj
  have hri : ri = (c0 + i, executeLeaf (c0 + i) li) := (Option.some.inj hi).symm
  have hrj : rj = (c0 + j, executeLeaf (c0 + j) lj) := (Option.some.inj hj).symm
  subst hri
  subst hrj
  have hij : c0 + i ≠ c0 + j := by omega
  refine ⟨runAll_length c0 ls, rfl, rfl, hij, ?_, ?_⟩
  · rw [List.all_eq_true]
    intro e he
    simpa using executeLeaf_ctx (c0 + i) li e he
  · rw [List.all_eq_true]
    intro e he
    have := executeLeaf_ctx (c0 + i) li e he
    simpa [this] using hij

/-- Witness for C7: a concrete two-leaf run in which the executions at
positions 0 and 1 hold the distinct Contexts 0 and 1 and each event
carries only its own execution's Context. -/
theorem context_isolation_witness :
    (runAll 0 [⟨[], false⟩, ⟨[], true⟩]).length =
      ([⟨[], false⟩, ⟨[], true⟩] : List LeafSpec).length ∧
    ((0 : Nat), executeLeaf 0 ⟨[], false⟩).1 = 0 + 0 ∧
    ((1 : Nat), executeLeaf 1 ⟨[], true⟩).1 = 0 + 1 ∧
    ((0 : Nat), executeLeaf 0 ⟨[], false⟩).1 ≠
      ((1 : Nat), executeLeaf 1 ⟨[], true⟩).1 ∧
    ((0 : Nat), executeLeaf 0 ⟨[], false⟩).2.1.all
      (fun e => e.ctxOf == ((0 : Nat), executeLeaf 0 ⟨[], false⟩).1) = true ∧
    ((0 : Nat), executeLeaf 0 ⟨[], false⟩).2.1.all
      (fun e => e.ctxOf != ((1 : Nat), executeLeaf 1 ⟨[], true⟩).1) = true :=
  context_isolation 0 [⟨[], false⟩, ⟨[], true⟩] 0 1
    (0, executeLeaf 0 ⟨[], false⟩) (1, executeLeaf 1 ⟨[], true⟩)
    (by decide) (by decide) (by decide)

/-- C4: under concurrent execution, whatever order the leaves complete in
(any permutation of the declaration indices), the aggregated report lists
the results in declaration order — the report is invariant across all
interleavings. -/
theorem concurrent_report_order {α : Type} (n : Nat) (res : Nat → α)
    (completionOrder : List Nat)
    (hperm : completionOrder.Perm (List.range n)) :
    aggregateReport (completionOrder.map (fun i => (i, res i)))
      = (List.range n).map (fun i => (i, res i)) := by
  have hperm_out :
      (aggregateReport (completionOrder.map (fun i => (i, res i)))).Perm
        (completionOrder.map (fun i => (i, res i))) :=
    List.perm_insertionSort keyLE _
  have hp :
      (completionOrder.map (fun i => (i, res i))).Perm
        ((List.range n).map (fun i => (i, res i))) :=
    hperm.map _
  have hall :
      (aggregateReport (completionOrder.map (fun i => (i, res i)))).Perm
        ((List.range n).map (fun i => (i, res i))) :=
    hperm_out.trans hp
  have hkeys :
      ((aggregateReport (completionOrder.map (fun i => (i, res i)))).map
        Prod.fst).Perm (List.range n) := by
    have h := hall.map Prod.fst
    simpa [List.map_map, Function.comp_def, List.map_id'] using h
  have hnod :
      ((aggregateReport (completionOrder.map (fun i => (i, res i)))).map
        Prod.fst).Nodup :=
    hkeys.symm.nodup (List.nodup_range n)
  have hne :
      List.Pairwise (fun a b : Nat × α => a.1 ≠ b.1)
        (aggregateReport (completionOrder.map (fun i => (i, res i)))) := by
    rw [List.Nodup, List.pairwise_map] at hnod
    exact hnod
  have hle :
      List.Pairwise keyLE
        (aggregateReport (completionOrder.map (fun i => (i, res i)))) :=
    List.sorted_insertionSort keyLE _
  have hlt :
      List.Sorted keyLT
        (aggregateReport (completionOrder.map (fun i => (i, res i)))) :=
    (hle.and hne).imp (fun h => Nat.lt_of_le_of_ne h.1 h.2)
  have htgt : List.Sorted keyLT ((List.range n).map (fun i => (i, res i))) := by
    rw [List.Sorted, List.pairwise_map]
    exact (List.pairwise_lt_range n).imp (fun h => h)
  exact List.eq_of_perm_of_sorted hall hlt htgt

/-- Witness for C4: three leaves completing in the order 2, 0, 1 are
still reported in declaration order 0, 1, 2. -/
theorem concurrent_report_order_witness :
    aggregateReport (([2, 0, 1] : List Nat).map (fun i => (i, 100 + i)))
      = (List.range 3).map (fun i => (i, 100 + i)) :=
  concurrent_report_order 3 (fun i => 100 + i) [2, 0, 1] (by decide)

/-- C6: the Timeout Watchdog never alters a test's pass/fail outcome; with
warnings enabled, a test running longer than the delay gets the warning
flag and exactly one warning event tagged with its identity; a test
completing within the delay shows no observable watchdog effect. -/
theorem watchdog_nonfatal (cfg : RunnerConfig) (leafName : String)
    (elapsed : Nat) (bodyPassed : Bool) :
    (watchdogRun cfg leafName elapsed bodyPassed).1.passed = bodyPassed ∧
    (cfg.showTimeoutWarning = true → cfg.timeoutWarningDelay < elapsed →
      (watchdogRun cfg leafName elapsed bodyPassed).1.warned = true ∧
      (watchdogRun cfg leafName elapsed bodyPassed).2 =
        [⟨leafName, cfg.timeoutWarningDelay⟩]) ∧
    (elapsed ≤ cfg.timeoutWarningDelay →
      watchdogRun cfg leafName elapsed bodyPassed = (⟨bodyPassed, false⟩, [])) := by
  refine ⟨?_, ?_, ?_⟩
  · unfold watchdogRun
    split <;> rfl
  · intro hEn hSlow
    simp [watchdogRun, hEn, hSlow]
  · intro hFast
    have hnot : ¬ cfg.timeoutWarningDelay < elapsed := Nat.not_lt.mpr hFast
    simp [watchdogRun, hnot]

/-- Witness for C6: with the default-like configuration (enabled, delay
15), a failing test that ran 20 units is still reported failed, with the
warning flag set and one tagged warning event; the same test at 10 units
shows no watchdog effect. -/
theorem watchdog_nonfatal_witness :
    ((watchdogRun ⟨true, 15⟩ "t" 20 false).1.passed = false ∧
      (watchdogRun ⟨true, 15⟩ "t" 20 false).1.warned = true ∧
      (watchdogRun ⟨true, 15⟩ "t" 20 false).2 = [⟨"t", 15⟩]) ∧
    watchdogRun ⟨true, 15⟩ "t" 10 false = (⟨false, false⟩, []) :=
  ⟨⟨(watchdog_nonfatal ⟨true, 15⟩ "t" 20 false).1,
    ((watchdog_nonfatal ⟨true, 15⟩ "t" 20 false).2.1 rfl (by decide)).1,
    ((watchdog_nonfatal ⟨true, 15⟩ "t" 20 false).2.1 rfl (by decide)).2⟩,
   (watchdog_nonfatal ⟨true, 15⟩ "t" 10 false).2.2 (by decide)⟩

/-- C8: `shouldThrow` fails with NoThrow exactly when the callback
completes without raising; when the callback raises and a pattern is
given, it succeeds exactly when the message contains the pattern and
fails with SubstringMismatch exactly otherwise; raising with no pattern
always succeeds.  The spec's two concrete examples are included. -/
theorem shouldThrow_characterization (msg s : String) (pat : Option String) :
    shouldThrow none pat = ThrowOutcome.noThrowFailure ∧
    shouldThrow (some msg) pat ≠ ThrowOutcome.noThrowFailure ∧
    shouldThrow (some msg) none = ThrowOutcome.success ∧
    (shouldThrow (some msg) (some s) = ThrowOutcome.success ↔
      strContainsSub msg s = true) ∧
    (shouldThrow (some msg) (some s) = ThrowOutcome.mismatchFailure ↔
      strContainsSub msg s = false) ∧
    shouldThrow (some "bad input") (some "bad") = ThrowOutcome.success ∧
    shouldThrow none (some "bad") = ThrowOutcome.noThrowFailure := by
  refine ⟨rfl, ?_, rfl, ?_, ?_, by decide, rfl⟩
  · cases pat with
    | none => simp [shouldThrow]
    | some s2 =>
        by_cases h : strContainsSub msg s2 = true
        · simp [shouldThrow, h]
        · simp [shouldThrow, h]
  · by_cases h : strContainsSub msg s = true
    · simp [shouldThrow, h]
    · simp [shouldThrow, h]
  · by_cases h : strContainsSub msg s = true
    · simp [shouldThrow, h]
    · simp [shouldThrow, h]

/-- C9: every omitted configuration field defaults as documented —
showTimeoutWarning to true, timeoutWarningDelay to 15, concurrent to
false; a wholly empty configuration yields exactly those values. -/
theorem config_defaults (c : TestConfig) :
    (c.showTimeoutWarning = none → (resolveConfig c).showTimeoutWarning = true) ∧
    (c.timeoutWarningDelay = none → (resolveConfig c).timeoutWarningDelay = 15) ∧
    (c.concurrent = none → (resolveConfig c).concurrent = false) ∧
    resolveConfig ⟨none, none, none⟩ = ⟨true, 15, false⟩ := by
  refine ⟨?_, ?_, ?_, rfl⟩
  · intro h
    simp [resolveConfig, h]
  · intro h
    simp [resolveConfig, h]
  · intro h
    simp [resolveConfig, h]

/-- Witness for C9 at the empty configuration. -/
theorem config_defaults_witness :
    (resolveConfig ⟨none, none, none⟩).showTimeoutWarning = true ∧
    (resolveConfig ⟨none, none, none⟩).timeoutWarningDelay = 15 ∧
    (resolveConfig ⟨none, none, none⟩).concurrent = false :=
  ⟨(config_defaults ⟨none, none, none⟩).1 rfl,
   (config_defaults ⟨none, none, none⟩).2.1 rfl,
   (config_defaults ⟨none, none, none⟩).2.2.1 rfl⟩

/-- C10: the `TestProps` interface exposes exactly the eight operations
test, testFOCUS, testSKIP, beforeEach, afterEach, nested, assertEqual and
shouldThrow, and every one of them is declared read-only, so the binding
interface offers a declaration callback no member it could rebind. -/
theorem testProps_members_readonly :
    testPropsMembers.map InterfaceMember.memberName =
      ["assertEqual", "test", "testFOCUS", "testSKIP", "beforeEach",
       "afterEach", "nested", "shouldThrow"] ∧
    testPropsMembers.all InterfaceMember.isReadonly = true := by
  decide
